import Mathlib

/-!
Shallow embedding of the gitoxide index writer (`git-index/src/write.rs`)
and of the worktree directory-materialization cache
(`git-worktree/src/fs.rs`, pinned by `git-worktree/tests/worktree/fs/cache.rs`),
with theorems settling the specification claims.
-/

set_option maxRecDepth 4096

deriving instance DecidableEq for Except

/-- Outcome of a fallible operation in the embedding: Rust panics
(`assert_eq!`, `expect`) are kept distinct from `Result::Err` values. -/
inductive WErr where
  | panic (msg : String)
  | io (msg : String)
deriving DecidableEq

/-- Index format versions (`git_index::Version`). -/
inductive Version where
  | V2
  | V3
  | V4
deriving DecidableEq

/-- Hash kinds (`git_hash::Kind`, an external collaborator; Sha1 is the default). -/
inductive HashKind where
  | sha1
deriving DecidableEq

/-- Extension signatures are 4-byte tags (`extension::Signature = [u8; 4]`). -/
abbrev Signature := List UInt8

/-- Modelled from the spec: the `extension::tree` signature tag, the 4 ASCII
bytes of "TREE" (the extension module is not under src/). -/
def extension.tree.SIGNATURE : Signature := [84, 82, 69, 69]

/-- Modelled from the spec: the `extension::end_of_index_entry` signature tag,
the 4 ASCII bytes of "EOIE" (the extension module is not under src/). -/
def extension.end_of_index_entry.SIGNATURE : Signature := [69, 79, 73, 69]

/-- Modelled from the spec: `extension::MIN_SIZE`, the fixed size of an
extension block's signature-plus-length header: a 4-byte signature tag and a
4-byte big-endian payload-length field. -/
def extension.MIN_SIZE : Nat := 4 + 4

/-- A way to specify which extensions to write (`write::Extensions`). -/
inductive Extensions where
  | All
  | Given (tree_cache : Bool) (end_of_index_entry : Bool)
  | None
deriving DecidableEq

/-- Returns `some signature` if it should be written out
(`Extensions::should_write`). -/
def Extensions.should_write (self : Extensions) (signature : Signature) : Option Signature :=
  match self with
  | .None => none
  | .All => some signature
  | .Given tree_cache end_of_index_entry =>
      if (if signature = extension.tree.SIGNATURE then tree_cache
          else if signature = extension.end_of_index_entry.SIGNATURE then end_of_index_entry
          else false)
      then some signature else none

/-- Options for writing an index (`write::Options`). -/
structure Options where
  hash_kind : HashKind
  version : Version
  extensions : Extensions
deriving DecidableEq

/-- The in-memory index state, as seen by the writer: the ordered entry list
(each entry opaque except for the bytes its external encoder emits) and the
optional tree extension's serialized payload bytes. -/
structure State where
  entries : List (List UInt8)
  tree : Option (List UInt8)
deriving DecidableEq

/-- Largest value of a `u32`. -/
def u32Max : Nat := 4294967295

/-- Big-endian 4-byte encoding of an integer (`u32::to_be_bytes`). -/
def be32 (n : Nat) : List UInt8 :=
  [UInt8.ofNat (n / 2 ^ 24 % 256), UInt8.ofNat (n / 2 ^ 16 % 256),
   UInt8.ofNat (n / 2 ^ 8 % 256), UInt8.ofNat (n % 256)]

/-- The byte-counting adapter (`write::util::CountBytes`): a `u32` running
count of the bytes written and the wrapped destination's accumulated bytes. -/
structure CountBytes where
  count : Nat
  inner : List UInt8
deriving DecidableEq

/-- One call of `CountBytes::write`: the inner sink accepts the whole buffer,
then the count is updated; a buffer over `u32::MAX` bytes panics (`expect`),
and a count overflow returns an I/O error (`checked_add` + `ok_or_else`). -/
def CountBytes.write (self : CountBytes) (buf : List UInt8) : Except WErr Nat × CountBytes :=
  let written := buf.length
  let sunk : CountBytes := { self with inner := self.inner ++ buf }
  if written ≤ u32Max then
    if self.count + written ≤ u32Max then
      (.ok written, { count := self.count + written, inner := self.inner ++ buf })
    else (.error (.io "Cannot write indices larger than 4 gigabytes"), sunk)
  else (.error (.panic "we don\x27t write 4GB buffers"), sunk)

/-- `write_all` on the adapter: a single underlying `write` sinks the whole
buffer, so `write_all` is `write` with the byte count discarded. -/
def CountBytes.write_all (self : CountBytes) (buf : List UInt8) : Except WErr Unit × CountBytes :=
  match self.write buf with
  | (.ok _, c) => (.ok (), c)
  | (.error e, c) => (.error e, c)

/-- The fixed index header (`write::header`): the 4-byte magic tag "DIRC", the
format version and the entry count as 4-byte big-endian integers; returns the
byte offset immediately following the header. -/
def write.header (out : CountBytes) (version : Version) (num_entries : Nat) :
    Except WErr Nat × CountBytes :=
  let signature : List UInt8 := [68, 73, 82, 67]
  let versionBytes : List UInt8 :=
    match version with
    | .V2 => be32 2
    | .V3 => be32 3
    | .V4 => be32 4
  match out.write_all signature with
  | (.error e, c) => (.error e, c)
  | (.ok _, c) =>
    match c.write_all versionBytes with
    | (.error e, c) => (.error e, c)
    | (.ok _, c) =>
      match c.write_all (be32 num_entries) with
      | (.error e, c) => (.error e, c)
      | (.ok _, c) => (.ok c.count, c)

/-- The entry loop of `write::entries`: serialize each entry record (the
external encoder's bytes), then emit the `eight_null_bytes[n..]` zero padding
whenever the running count past the header is not a multiple of 8. -/
def write.entriesLoop (out : CountBytes) (es : List (List UInt8)) (header_size : Nat) :
    Except WErr Unit × CountBytes :=
  match es with
  | [] => (.ok (), out)
  | e :: rest =>
    match out.write_all e with
    | (.error err, c) => (.error err, c)
    | (.ok _, c) =>
      let n := (c.count - header_size) % 8
      if n = 0 then write.entriesLoop c rest header_size
      else
        match c.write_all (List.replicate (8 - n) 0) with
        | (.error err, c2) => (.error err, c2)
        | (.ok _, c2) => write.entriesLoop c2 rest header_size

/-- The `write::entries` stage: write all entry records with padding and
return the byte offset at the end of the entries block. -/
def write.entries (out : CountBytes) (state : State) (header_size : Nat) :
    Except WErr Nat × CountBytes :=
  match write.entriesLoop out state.entries header_size with
  | (.error e, c) => (.error e, c)
  | (.ok _, c) => (.ok c.count, c)

/-- Modelled from the spec: `extension::Tree::write_to` (not under src/)
emits one extension block for the tree payload: the 4-byte signature tag,
the 4-byte big-endian payload-length field, then the payload bytes. -/
def extension.tree.write_to (out : CountBytes) (payload : List UInt8) :
    Except WErr Unit × CountBytes :=
  match out.write_all extension.tree.SIGNATURE with
  | (.error e, c) => (.error e, c)
  | (.ok _, c) =>
    match c.write_all (be32 payload.length) with
    | (.error e, c) => (.error e, c)
    | (.ok _, c) => c.write_all payload

/-- The extension-writing loop of `State::write_to`: the writer list holds a
single closure, which writes the tree extension when the policy approves its
signature and the state carries a tree; each written extension appends
`(signature, offset_past_ext - offset_to_previous_ext - MIN_SIZE)` to the
table of contents. -/
def write.writeExtensions (out : CountBytes) (extensions : Extensions)
    (tree : Option (List UInt8)) (offset_to_extensions : Nat) :
    Except WErr (List (Signature × Nat)) × CountBytes :=
  match extensions.should_write extension.tree.SIGNATURE with
  | none => (.ok [], out)
  | some signature =>
    match tree with
    | none => (.ok [], out)
    | some payload =>
      match extension.tree.write_to out payload with
      | (.error e, c) => (.error e, c)
      | (.ok _, c) =>
        let offset_past_ext := c.count
        let ext_size := offset_past_ext - offset_to_extensions - extension.MIN_SIZE
        (.ok [(signature, ext_size)], c)

/-- The serialized bytes of the extension table of contents: each entry's
signature tag followed by its payload size as a 4-byte big-endian integer. -/
def tocBytes (toc : List (Signature × Nat)) : List UInt8 :=
  (toc.map (fun p => p.1 ++ be32 p.2)).flatten

/-- Number of bytes in a checksum of the given hash kind. -/
def HashKind.len (k : HashKind) : Nat :=
  match k with
  | .sha1 => 20

/-- Modelled from the spec: `extension::end_of_index_entry::write_to` (not
under src/) appends the trailing extension directly to the raw inner sink,
bypassing the counter: its signature tag, the 4-byte big-endian length of its
payload, the recorded offset to the first extension block, and a checksum
(computed by the external hash collaborator over the table-of-contents bytes,
sized per the configured hash kind). -/
def extension.end_of_index_entry.write_to (hash : List UInt8 → List UInt8)
    (inner : List UInt8) (hash_kind : HashKind) (offset_to_extensions : Nat)
    (toc : List (Signature × Nat)) : List UInt8 :=
  let checksum := (hash (tocBytes toc)).take hash_kind.len
  inner ++ extension.end_of_index_entry.SIGNATURE
        ++ be32 (4 + hash_kind.len) ++ be32 offset_to_extensions ++ checksum

/-- The body of `State::write_to` after its two pre-write checks: header,
entries with padding, then the approved-and-present extensions, returning the
offset to the start of the extensions block and the table of contents. -/
def State.write_body (self : State) (opts : Options) :
    Except WErr (Nat × List (Signature × Nat)) × CountBytes :=
  let write0 : CountBytes := { count := 0, inner := [] }
  match write.header write0 opts.version self.entries.length with
  | (.error e, w) => (.error e, w)
  | (.ok offset_to_entries, w) =>
    match write.entries w self offset_to_entries with
    | (.error e, w) => (.error e, w)
    | (.ok offset_to_extensions, w) =>
      match write.writeExtensions w opts.extensions self.tree offset_to_extensions with
      | (.error e, w) => (.error e, w)
      | (.ok extension_toc, w) => (.ok (offset_to_extensions, extension_toc), w)

/-- Serialize a state (`State::write_to`). The version assertion and the
entry-count `expect` panic before any byte reaches the destination; then the
body runs, and the end-of-index-entry extension is appended to the raw inner
sink only when the entry count is positive, the policy approves its signature
and the table of contents is non-empty. The second component is the
destination's final contents. -/
def State.write_to (hash : List UInt8 → List UInt8) (self : State) (opts : Options) :
    Except WErr Unit × List UInt8 :=
  if opts.version = Version.V2 then
    if self.entries.length ≤ u32Max then
      match self.write_body opts with
      | (.error e, w) => (.error e, w.inner)
      | (.ok (offset_to_extensions, extension_toc), w) =>
        if 0 < self.entries.length
            ∧ (opts.extensions.should_write extension.end_of_index_entry.SIGNATURE).isSome = true
            ∧ extension_toc ≠ []
        then (.ok (), extension.end_of_index_entry.write_to hash w.inner
                        opts.hash_kind offset_to_extensions extension_toc)
        else (.ok (), w.inner)
    else (.error (.panic "definitely not 4billion entries"), [])
  else (.error (.panic "can only write V2 at the moment, please come back later"), [])

/-- True exactly when an outcome is a returned `Result::Err` (an I/O error),
as opposed to a success or a panic. -/
def isResultErr (r : Except WErr Unit) : Bool :=
  match r with
  | .error (.io _) => true
  | _ => false

/-- Entry modes (`git_index::entry::Mode`, an external collaborator; the
variants used by the worktree cache tests). -/
inductive Mode where
  | DIR
  | COMMIT
  | FILE
  | FILE_EXECUTABLE
  | SYMLINK
deriving DecidableEq

/-- Kind of an entry occupying a filesystem path: a genuine directory, a
plain file, or a symbolic link. A symlink is never traversed, so its target
is irrelevant to the model and not recorded. -/
inductive FsKind where
  | dir
  | file
  | symlink
deriving DecidableEq

/-- A filesystem path, as its list of segments. -/
abbrev FsPath := List String

/-- A snapshot of the relevant filesystem contents: which paths are occupied
and by what kind of entry. -/
structure Fs where
  entries : List (FsPath × FsKind)
deriving DecidableEq

/-- Look up the kind of entry occupying a path, if any. -/
def Fs.lookup (fs : Fs) (p : FsPath) : Option FsKind :=
  match fs.entries.find? (fun q => q.1 == p) with
  | some q => some q.2
  | none => none

/-- Unlink one non-directory entry at a path (`std::fs::remove_file`: not a
recursive directory removal). -/
def Fs.remove_file (fs : Fs) (p : FsPath) : Fs :=
  ⟨fs.entries.filter (fun q => !(q.1 == p))⟩

/-- Outcome of one `std::fs::create_dir` attempt, as the cache inspects it:
freshly created, already a directory, or occupied by a non-directory. -/
inductive MkdirOutcome where
  | created
  | existsDir
  | collision
deriving DecidableEq

/-- Modelled from the spec: one `std::fs::create_dir` attempt on the
filesystem snapshot (the cache implementation in `git-worktree/src/fs.rs` is
not under src/). An unoccupied path becomes a directory; an existing
directory is left alone; a file or symlink occupying the path is a collision,
the symlink never being traversed. -/
def Fs.create_dir (fs : Fs) (p : FsPath) : MkdirOutcome × Fs :=
  match fs.lookup p with
  | none => (.created, ⟨(p, .dir) :: fs.entries⟩)
  | some .dir => (.existsDir, fs)
  | some _ => (.collision, fs)

/-- Errors surfaced by the directory materialization cache. -/
inductive CacheErr where
  | AlreadyExists
deriving DecidableEq

/-- The directory materialization cache (`fs::Cache`): root path, policy
switches, the memo of directories confirmed during this instance's lifetime,
and the test counter of directory-creation attempts. -/
structure Cache where
  root : FsPath
  create_directories : Bool
  unlink_on_collision : Bool
  memo : List FsPath
  test_mkdir_calls : Nat
deriving DecidableEq

/-- Modelled from the spec: ensuring one ancestor segment (the per-segment
step of `fs::Cache`, not under src/). A memoized path is skipped without any
filesystem call; otherwise one creation attempt is made (counted). A fresh or
already-directory path is memoized and confirmed; a collision fails with
`AlreadyExists` when removal is forbidden, and otherwise unlinks the
colliding entry and retries creation of the same path exactly once (also
counted), propagating a second failure unchanged. -/
def Cache.assure_dir (cache : Cache) (fs : Fs) (p : FsPath) :
    Except CacheErr Unit × Cache × Fs :=
  if p ∈ cache.memo then (.ok (), cache, fs)
  else
    let cache1 := { cache with test_mkdir_calls := cache.test_mkdir_calls + 1 }
    match fs.create_dir p with
    | (.created, fs1) => (.ok (), { cache1 with memo := p :: cache1.memo }, fs1)
    | (.existsDir, fs1) => (.ok (), { cache1 with memo := p :: cache1.memo }, fs1)
    | (.collision, fs1) =>
      if cache1.unlink_on_collision then
        let fs2 := fs1.remove_file p
        let cache2 := { cache1 with test_mkdir_calls := cache1.test_mkdir_calls + 1 }
        match fs2.create_dir p with
        | (.created, fs3) => (.ok (), { cache2 with memo := p :: cache2.memo }, fs3)
        | (.existsDir, fs3) => (.error .AlreadyExists, cache2, fs3)
        | (.collision, fs3) => (.error .AlreadyExists, cache2, fs3)
      else (.error .AlreadyExists, cache1, fs1)

/-- Walk a list of ancestor paths from the root outward, stopping at the
first failure. -/
def Cache.assure_chain (cache : Cache) (fs : Fs) (ps : List FsPath) :
    Except CacheErr Unit × Cache × Fs :=
  match ps with
  | [] => (.ok (), cache, fs)
  | p :: rest =>
    match cache.assure_dir fs p with
    | (.ok _, c, f) => c.assure_chain f rest
    | (.error e, c, f) => (.error e, c, f)

/-- The prefixes of the relative path that must exist as directories: every
proper ancestor, plus the full path itself when the leaf is itself treated as
a directory. -/
def leadingDirs (root : FsPath) (relative : List String) (leaf_is_dir : Bool) : List FsPath :=
  let k := if leaf_is_dir then relative.length else relative.length - 1
  (List.range k).map (fun i => root ++ relative.take (i + 1))

/-- Modelled from the spec:
`fs::Cache::append_relative_path_assure_leading_dir` (the implementation in
`git-worktree/src/fs.rs` is not under src/). When directory creation is
enabled, every ancestor of the relative path is ensured from the root
outward; a leaf of directory or submodule-commit mode additionally has the
full path ensured as a directory, as pinned by the in-repo test
`directory_paths_are_created_in_full`, whose expected 3 creation calls are
only consistent with ensuring those leaves. The composed root-joined path is
returned; the leaf is never created for the other modes. -/
def Cache.append_relative_path_assure_leading_dir (cache : Cache) (fs : Fs)
    (relative : List String) (mode : Mode) : Except CacheErr FsPath × Cache × Fs :=
  if cache.create_directories then
    let leaf_is_dir := mode == Mode.DIR || mode == Mode.COMMIT
    match cache.assure_chain fs (leadingDirs cache.root relative leaf_is_dir) with
    | (.ok _, c, f) => (.ok (cache.root ++ relative), c, f)
    | (.error e, c, f) => (.error e, c, f)
  else (.ok (cache.root ++ relative), cache, fs)

/-- The 12 header bytes for a V2 index with the given entry count. -/
def headerBytes (num_entries : Nat) : List UInt8 :=
  [68, 73, 82, 67] ++ be32 2 ++ be32 num_entries

/-- The zero padding emitted after one entry record when the running count
since the header end was a multiple of 8 before the record: 0 to 7 zero
bytes, bringing the record to an 8-byte boundary. -/
def padFor (e : List UInt8) : List UInt8 :=
  List.replicate ((8 - e.length % 8) % 8) 0

/-- The whole entries block: each entry's record bytes followed by its
padding. -/
def paddedEntries (es : List (List UInt8)) : List UInt8 :=
  (es.map (fun e => e ++ padFor e)).flatten

/-- The bytes of one tree extension block. -/
def treeBlock (p : List UInt8) : List UInt8 :=
  extension.tree.SIGNATURE ++ be32 p.length ++ p

/-- The bytes appended by the end-of-index-entry extension. -/
def eoieTail (hash : List UInt8 → List UInt8) (k : HashKind) (off : Nat)
    (toc : List (Signature × Nat)) : List UInt8 :=
  extension.end_of_index_entry.SIGNATURE ++ be32 (4 + k.len) ++ be32 off
    ++ (hash (tocBytes toc)).take k.len

/-- A concrete stand-in for the external hash collaborator, used by witnesses. -/
def hash0 : List UInt8 → List UInt8 := fun _ => List.replicate 20 0

/-- A concrete empty state. -/
def state0 : State := { entries := [], tree := none }

/-- A concrete state with one entry and a tree extension payload. -/
def state1 : State := { entries := [[1, 2, 3]], tree := some [7, 7] }

/-- A concrete empty-entry-list state that carries a tree extension payload. -/
def stateEmpty : State := { entries := [], tree := some [7] }

/-- A concrete state whose entry count does not fit a 4-byte unsigned field. -/
def stateBig : State := { entries := List.replicate (u32Max + 1) [], tree := none }

/-- Default-style options with a non-baseline version. -/
def optionsV3 : Options := { hash_kind := .sha1, version := .V3, extensions := .All }

/-- Options writing the baseline version with every extension. -/
def optionsAll : Options := { hash_kind := .sha1, version := .V2, extensions := .All }

/-- The filesystem of the collision test: under the root, `forbidden` is a
directory, `link-to-dir` a symlink pointing at it, and `file-in-dir` a plain
empty file. -/
def fsCollide : Fs :=
  ⟨[(["tmp", "forbidden"], .dir), (["tmp", "link-to-dir"], .symlink),
    (["tmp", "file-in-dir"], .file)]⟩

/-- A fresh cache over the test root with directory creation enabled and
removal on collision disabled. -/
def cacheNoUnlink : Cache :=
  { root := ["tmp"], create_directories := true, unlink_on_collision := false,
    memo := [], test_mkdir_calls := 0 }

/-- The same fresh cache with removal on collision enabled. -/
def cacheUnlink : Cache :=
  { cacheNoUnlink with unlink_on_collision := true }

/-- An empty filesystem under the test root. -/
def fsEmpty : Fs := ⟨[]⟩

/-- The five leaf paths of the materialization test with their modes. -/
def fiveLeaves : List (List String × Mode) :=
  [(["dir", "dir"], .DIR), (["dir", "submodule"], .COMMIT), (["dir", "file"], .FILE),
   (["dir", "exe"], .FILE_EXECUTABLE), (["dir", "link"], .SYMLINK)]

/-- Materialize a list of leaf paths in order under one cache instance,
collecting each call's result. -/
def Cache.materializeAll (cache : Cache) (fs : Fs) (items : List (List String × Mode)) :
    List (Except CacheErr FsPath) × Cache × Fs :=
  match items with
  | [] => ([], cache, fs)
  | (rel, mode) :: rest =>
    let r := cache.append_relative_path_assure_leading_dir fs rel mode
    let rec' := r.2.1.materializeAll r.2.2 rest
    (r.1 :: rec'.1, rec'.2)

theorem CountBytes.write_all_ok {c : CountBytes} {buf : List UInt8} {u : Unit}
    {c' : CountBytes} (h : c.write_all buf = (.ok u, c')) :
    c'.count = c.count + buf.length ∧ c'.inner = c.inner ++ buf ∧ c'.count ≤ u32Max := by
  unfold CountBytes.write_all CountBytes.write at h
  by_cases h1 : buf.length ≤ u32Max
  · by_cases h2 : c.count + buf.length ≤ u32Max
    · simp only [h1, h2, if_pos] at h
      cases h
      exact ⟨rfl, rfl, h2⟩
    · simp only [h1, h2, if_pos, if_neg, not_false_iff] at h
      simp at h
  · simp only [h1, if_neg, not_false_iff] at h
    simp at h

/-- C10: the byte-counting adapter refuses to let its `u32` counter wrap: a
write whose cumulative output would exceed `u32::MAX` bytes returns the
4-gigabyte I/O error, and every successful write leaves the exact,
unwrapped cumulative count, still within `u32::MAX`. -/
theorem count_bytes_write_overflow_guard :
    (∀ (c : CountBytes) (buf : List UInt8),
        buf.length ≤ u32Max → u32Max < c.count + buf.length →
        (c.write buf).1 = .error (.io "Cannot write indices larger than 4 gigabytes"))
    ∧ (∀ (c : CountBytes) (buf : List UInt8) (n : Nat) (c' : CountBytes),
        c.write buf = (.ok n, c') →
        c'.count = c.count + buf.length ∧ c'.count ≤ u32Max) := by
  constructor
  · intro c buf h1 h2
    unfold CountBytes.write
    simp only [h1, if_pos]
    rw [if_neg (by omega)]
  · intro c buf n c' h
    unfold CountBytes.write at h
    by_cases h1 : buf.length ≤ u32Max
    · by_cases h2 : c.count + buf.length ≤ u32Max
      · simp only [h1, h2, if_pos] at h
        cases h
        exact ⟨rfl, h2⟩
      · simp only [h1, h2, if_pos, if_neg, not_false_iff] at h
        simp at h
    · simp only [h1, if_neg, not_false_iff] at h
      simp at h

theorem count_bytes_write_overflow_guard_witness :
    (CountBytes.write { count := u32Max, inner := [] } [0]).1
      = .error (.io "Cannot write indices larger than 4 gigabytes") :=
  count_bytes_write_overflow_guard.1 { count := u32Max, inner := [] } [0]
    (by decide) (by decide)

/-- C1 counterexample: with a non-baseline version, `write_to` does not
return an unsupported-version error as a `Result` — it panics via
`assert_eq!` (the outcome is the panic message, and no returned I/O error). -/
theorem write_to_non_v2_no_result_error :
    (State.write_to hash0 state0 optionsV3).1
        = .error (.panic "can only write V2 at the moment, please come back later")
      ∧ isResultErr (State.write_to hash0 state0 optionsV3).1 = false := by decide

/-- C1 (amended): for every state and every options value whose format
version is not the baseline V2, `write_to` fails fast with the
unsupported-version assertion panic — not a returned `Result` error — and
does so before any byte is written to the destination. -/
theorem write_to_non_v2_panics (hash : List UInt8 → List UInt8)
    (self : State) (opts : Options) (h : opts.version ≠ .V2) :
    State.write_to hash self opts
      = (.error (.panic "can only write V2 at the moment, please come back later"), []) := by
  unfold State.write_to
  rw [if_neg h]

theorem write_to_non_v2_panics_witness :
    State.write_to hash0 state0 optionsV3
      = (.error (.panic "can only write V2 at the moment, please come back later"), []) :=
  write_to_non_v2_panics hash0 state0 optionsV3 (by decide)

/-- C2 counterexample: with more than `u32::MAX` entries, `write_to` does not
return an entry-count-overflow error as a `Result` — it panics via the
`try_into ... expect` on the entry count (no byte is written, but the
outcome is a panic, not a returned I/O error). -/
theorem write_to_huge_entry_count_no_result_error :
    (State.write_to hash0 stateBig optionsAll).1
        = .error (.panic "definitely not 4billion entries")
      ∧ isResultErr (State.write_to hash0 stateBig optionsAll).1 = false
      ∧ (State.write_to hash0 stateBig optionsAll).2 = [] := by
  have hlen : stateBig.entries.length = u32Max + 1 := by
    show (List.replicate (u32Max + 1) ([] : List UInt8)).length = u32Max + 1
    rw [List.length_replicate]
  unfold State.write_to
  rw [if_pos (by decide), if_neg (by rw [hlen]; omega)]
  exact ⟨rfl, rfl, rfl⟩

/-- C2 (amended): for every state whose entry count does not fit a 4-byte
unsigned field, `write_to` at the baseline version fails fast with the
entry-count `expect` panic — not a returned `Result` error — before any byte
is written to the destination. -/
theorem write_to_huge_entry_count_panics (hash : List UInt8 → List UInt8)
    (self : State) (opts : Options) (hv : opts.version = .V2)
    (h : u32Max < self.entries.length) :
    State.write_to hash self opts
      = (.error (.panic "definitely not 4billion entries"), []) := by
  unfold State.write_to
  rw [if_pos hv, if_neg (by omega)]

theorem write_to_huge_entry_count_panics_witness :
    State.write_to hash0 stateBig optionsAll
      = (.error (.panic "definitely not 4billion entries"), []) :=
  write_to_huge_entry_count_panics hash0 stateBig optionsAll (by decide)
    (by show u32Max < (List.replicate (u32Max + 1) ([] : List UInt8)).length
        rw [List.length_replicate]
        omega)

theorem be32_length (n : Nat) : (be32 n).length = 4 := rfl

theorem write.header_ok {c : CountBytes} {N off : Nat} {c' : CountBytes}
    (h : write.header c .V2 N = (.ok off, c')) :
    c'.inner = c.inner ++ headerBytes N ∧ c'.count = c.count + 12 ∧ off = c'.count := by
  simp only [write.header] at h
  split at h
  · simp at h
  · rename_i u1 c1 hw1
    split at h
    · simp at h
    · rename_i u2 c2 hw2
      split at h
      · simp at h
      · rename_i u3 c3 hw3
        injection h with h1 h2
        injection h1 with h1
        subst h2
        obtain ⟨a1, b1, _⟩ := CountBytes.write_all_ok hw1
        obtain ⟨a2, b2, _⟩ := CountBytes.write_all_ok hw2
        obtain ⟨a3, b3, _⟩ := CountBytes.write_all_ok hw3
        refine ⟨?_, ?_, ?_⟩
        · rw [b3, b2, b1]
          simp [headerBytes]
        · rw [a3, a2, a1]
          simp [be32_length]
        · omega

theorem paddedEntries_nil : paddedEntries [] = [] := rfl

theorem paddedEntries_cons (e : List UInt8) (es : List (List UInt8)) :
    paddedEntries (e :: es) = (e ++ padFor e) ++ paddedEntries es := by
  simp [paddedEntries]

theorem write.entriesLoop_ok :
    ∀ (es : List (List UInt8)) (c : CountBytes) (hs : Nat) (u : Unit) (c' : CountBytes),
      hs ≤ c.count → (c.count - hs) % 8 = 0 →
      write.entriesLoop c es hs = (.ok u, c') →
      c'.inner = c.inner ++ paddedEntries es
        ∧ c'.count = c.count + (paddedEntries es).length
        ∧ (c'.count - hs) % 8 = 0 ∧ hs ≤ c'.count := by
  intro es
  induction es with
  | nil =>
    intro c hs u c' hle hmod h
    simp only [write.entriesLoop] at h
    injection h with h1 h2
    subst h2
    simp [paddedEntries_nil, hmod, hle]
  | cons e rest ih =>
    intro c hs u c' hle hmod h
    simp only [write.entriesLoop] at h
    split at h
    · simp at h
    · rename_i u1 c1 hw1
      obtain ⟨a1, b1, _⟩ := CountBytes.write_all_ok hw1
      have hlen1 : c1.count = c.count + e.length := a1
      by_cases hn : (c1.count - hs) % 8 = 0
      · rw [if_pos hn] at h
        obtain ⟨i1, i2, i3, i4⟩ := ih c1 hs u c' (by omega) hn h
        have hpe : e.length % 8 = 0 := by omega
        have hpad : paddedEntries (e :: rest) = e ++ paddedEntries rest := by
          rw [paddedEntries_cons, padFor, hpe]
          simp
        refine ⟨?_, ?_, i3, by omega⟩
        · rw [i1, b1, hpad]
          simp
        · rw [i2, hlen1, hpad]
          simp [Nat.add_assoc]
      · rw [if_neg hn] at h
        split at h
        · simp at h
        · rename_i u2 c2 hw2
          obtain ⟨a2, b2, _⟩ := CountBytes.write_all_ok hw2
          have hrep : (List.replicate (8 - (c1.count - hs) % 8) (0 : UInt8)).length
              = 8 - (c1.count - hs) % 8 := by simp
          have hc2 : c2.count = c1.count + (8 - (c1.count - hs) % 8) := by
            rw [a2, hrep]
          obtain ⟨i1, i2, i3, i4⟩ := ih c2 hs u c' (by omega) (by omega) h
          have hpadeq : (8 - e.length % 8) % 8 = 8 - (c1.count - hs) % 8 := by omega
          have hpad : padFor e = List.replicate (8 - (c1.count - hs) % 8) 0 := by
            rw [padFor, hpadeq]
          refine ⟨?_, ?_, i3, by omega⟩
          · rw [i1, b2, b1, paddedEntries_cons, hpad]
            simp
          · rw [i2, hc2, hlen1, paddedEntries_cons]
            simp [hpad, hrep]
            omega

theorem write.entries_ok {c : CountBytes} {state : State} {hs off : Nat} {c' : CountBytes}
    (hle : hs ≤ c.count) (hmod : (c.count - hs) % 8 = 0)
    (h : write.entries c state hs = (.ok off, c')) :
    c'.inner = c.inner ++ paddedEntries state.entries
      ∧ c'.count = c.count + (paddedEntries state.entries).length
      ∧ off = c'.count ∧ (c'.count - hs) % 8 = 0 := by
  simp only [write.entries] at h
  split at h
  · simp at h
  · rename_i u1 c1 hw1
    injection h with h1 h2
    injection h1 with h1
    subst h2
    obtain ⟨i1, i2, i3, _⟩ := write.entriesLoop_ok state.entries c hs u1 c1 hle hmod hw1
    exact ⟨i1, i2, h1.symm, i3⟩

theorem extension.tree.write_to_ok {c : CountBytes} {p : List UInt8} {u : Unit}
    {c' : CountBytes} (h : extension.tree.write_to c p = (.ok u, c')) :
    c'.inner = c.inner ++ treeBlock p ∧ c'.count = c.count + (8 + p.length) := by
  simp only [extension.tree.write_to] at h
  split at h
  · simp at h
  · rename_i u1 c1 hw1
    split at h
    · simp at h
    · rename_i u2 c2 hw2
      obtain ⟨a1, b1, _⟩ := CountBytes.write_all_ok hw1
      obtain ⟨a2, b2, _⟩ := CountBytes.write_all_ok hw2
      obtain ⟨a3, b3, _⟩ := CountBytes.write_all_ok h
      constructor
      · rw [b3, b2, b1, treeBlock]
        simp
      · rw [a3, a2, a1]
        simp [be32_length, extension.tree.SIGNATURE]
        omega

theorem Extensions.should_write_inv {self : Extensions} {s x : Signature}
    (h : self.should_write s = some x) : x = s := by
  rcases self with _ | ⟨tc, eo⟩ | _
  · simp only [Extensions.should_write] at h
    injection h with h1
    exact h1.symm
  · simp only [Extensions.should_write] at h
    repeat' split at h
    all_goals first
      | (injection h with h1; exact h1.symm)
      | injection h
  · simp only [Extensions.should_write] at h
    injection h

theorem write.writeExtensions_ok {c : CountBytes} {exts : Extensions}
    {tr : Option (List UInt8)} {off : Nat} {toc : List (Signature × Nat)} {c' : CountBytes}
    (h : write.writeExtensions c exts tr off = (.ok toc, c')) :
    ((exts.should_write extension.tree.SIGNATURE = none ∨ tr = none) ∧ toc = [] ∧ c' = c)
    ∨ (∃ p, exts.should_write extension.tree.SIGNATURE = some extension.tree.SIGNATURE
        ∧ tr = some p
        ∧ c'.inner = c.inner ++ treeBlock p
        ∧ c'.count = c.count + (8 + p.length)
        ∧ toc = [(extension.tree.SIGNATURE, c'.count - off - extension.MIN_SIZE)]) := by
  rcases hsw : exts.should_write extension.tree.SIGNATURE with _ | s
  · simp only [write.writeExtensions, hsw] at h
    injection h with h1 h2
    injection h1 with h1
    exact Or.inl ⟨Or.inl rfl, h1.symm, h2.symm⟩
  · have hs : s = extension.tree.SIGNATURE := Extensions.should_write_inv hsw
    subst hs
    rcases htr : tr with _ | p
    · simp only [write.writeExtensions, hsw, htr] at h
      injection h with h1 h2
      injection h1 with h1
      exact Or.inl ⟨Or.inr rfl, h1.symm, h2.symm⟩
    · simp only [write.writeExtensions, hsw, htr] at h
      rcases hw1 : extension.tree.write_to c p with ⟨e1 | u1, c1⟩ <;> rw [hw1] at h
      · simp at h
      · obtain ⟨b1, a1⟩ := extension.tree.write_to_ok hw1
        injection h with h1 h2
        injection h1 with h1
        subst h2
        exact Or.inr ⟨p, rfl, rfl, b1, a1, h1.symm⟩

theorem headerBytes_length (N : Nat) : (headerBytes N).length = 12 := rfl

theorem MIN_SIZE_eq : extension.MIN_SIZE = 8 := rfl

theorem State.write_body_ok {self : State} {opts : Options} {offE : Nat}
    {toc : List (Signature × Nat)} {w : CountBytes}
    (hv : opts.version = .V2)
    (h : self.write_body opts = (.ok (offE, toc), w)) :
    offE = 12 + (paddedEntries self.entries).length
    ∧ (((opts.extensions.should_write extension.tree.SIGNATURE = none ∨ self.tree = none)
          ∧ toc = []
          ∧ w.inner = headerBytes self.entries.length ++ paddedEntries self.entries
          ∧ w.count = offE)
       ∨ (∃ p, opts.extensions.should_write extension.tree.SIGNATURE
                  = some extension.tree.SIGNATURE
            ∧ self.tree = some p
            ∧ toc = [(extension.tree.SIGNATURE, w.count - offE - extension.MIN_SIZE)]
            ∧ w.count - offE - extension.MIN_SIZE = p.length
            ∧ w.inner = headerBytes self.entries.length ++ paddedEntries self.entries
                          ++ treeBlock p
            ∧ w.count = offE + extension.MIN_SIZE + p.length)) := by
  simp only [State.write_body, hv] at h
  split at h
  · simp at h
  · rename_i offH c1 hh
    obtain ⟨hb1, hb2, hb3⟩ := write.header_ok hh
    simp only [List.nil_append] at hb1
    have hb2' : c1.count = 12 := by simpa using hb2
    split at h
    · simp at h
    · rename_i offX c2 he
      have hle : offH ≤ c1.count := le_of_eq hb3
      have hmod : (c1.count - offH) % 8 = 0 := by omega
      obtain ⟨he1, he2, he3, he4⟩ := write.entries_ok hle hmod he
      split at h
      · simp at h
      · rename_i tocx c3 hx
        injection h with h1 h2
        injection h1 with h1
        injection h1 with h1a h1b
        subst h2
        subst h1a
        subst h1b
        have hoffE : offX = 12 + (paddedEntries self.entries).length := by omega
        rcases write.writeExtensions_ok hx with ⟨hA, htoc, hceq⟩ | ⟨p, hsw, htr, hbi, hbc, htoc⟩
        · subst hceq
          have hinner : c3.inner
              = headerBytes self.entries.length ++ paddedEntries self.entries := by
            rw [he1, hb1]
          exact ⟨hoffE, Or.inl ⟨hA, htoc, hinner, by omega⟩⟩
        · have hsize : c3.count - offX - extension.MIN_SIZE = p.length := by
            rw [MIN_SIZE_eq]
            omega
          have hinner : c3.inner = headerBytes self.entries.length
              ++ paddedEntries self.entries ++ treeBlock p := by
            simp [hbi, he1, hb1]
          have hcount : c3.count = offX + extension.MIN_SIZE + p.length := by
            rw [MIN_SIZE_eq]
            omega
          exact ⟨hoffE, Or.inr ⟨p, hsw, htr, htoc, hsize, hinner, hcount⟩⟩

theorem State.write_to_eq_body {hash : List UInt8 → List UInt8} {self : State}
    {opts : Options} {offE : Nat} {toc : List (Signature × Nat)} {w : CountBytes}
    (hv : opts.version = .V2) (hn : self.entries.length ≤ u32Max)
    (hb : self.write_body opts = (.ok (offE, toc), w)) :
    State.write_to hash self opts
      = (.ok (), w.inner
          ++ (if 0 < self.entries.length
                ∧ (opts.extensions.should_write
                    extension.end_of_index_entry.SIGNATURE).isSome = true
                ∧ toc ≠ []
              then eoieTail hash opts.hash_kind offE toc else [])) := by
  unfold State.write_to
  rw [if_pos hv, if_pos hn, hb]
  split
  · rename_i e w1 hcond
    simp at hcond
  · rename_i offX tocX w1 hcond
    injection hcond with hc1 hc2
    injection hc1 with hc1
    injection hc1 with hc1a hc1b
    subst hc2
    subst hc1a
    subst hc1b
    split
    · simp [extension.end_of_index_entry.write_to, eoieTail, List.append_assoc]
    · simp

theorem State.write_to_ok_inv {hash : List UInt8 → List UInt8} {self : State}
    {opts : Options} {out : List UInt8}
    (h : State.write_to hash self opts = (.ok (), out)) :
    opts.version = .V2 ∧ self.entries.length ≤ u32Max
    ∧ ∃ offE toc w, self.write_body opts = (.ok (offE, toc), w)
        ∧ out = w.inner
            ++ (if 0 < self.entries.length
                  ∧ (opts.extensions.should_write
                      extension.end_of_index_entry.SIGNATURE).isSome = true
                  ∧ toc ≠ []
                then eoieTail hash opts.hash_kind offE toc else []) := by
  unfold State.write_to at h
  by_cases hv : opts.version = .V2
  · rw [if_pos hv] at h
    by_cases hn : self.entries.length ≤ u32Max
    · rw [if_pos hn] at h
      refine ⟨hv, hn, ?_⟩
      split at h
      · simp at h
      · rename_i offX tocX w1 hcond
        refine ⟨offX, tocX, w1, hcond, ?_⟩
        split at h
        · rename_i hcond2
          injection h with h1 h2
          rw [if_pos hcond2, ← h2]
          simp [extension.end_of_index_entry.write_to, eoieTail, List.append_assoc]
        · rename_i hcond2
          injection h with h1 h2
          rw [if_neg hcond2, ← h2]
          simp
    · rw [if_neg hn] at h
      simp at h
  · rw [if_neg hv] at h
    simp at h

theorem paddedEntries_length_mod (es : List (List UInt8)) :
    (paddedEntries es).length % 8 = 0 := by
  induction es with
  | nil => simp [paddedEntries_nil]
  | cons e rest ih =>
    rw [paddedEntries_cons]
    simp [List.length_append, padFor]
    omega

/-- C3: on every successful write, the serialized header carries the entry
count in its third field, each entry record is followed by its 0-7 zero
padding bytes, and the entries block as a whole (measured from the header
end) has length a multiple of 8. -/
theorem write_to_entry_count_and_alignment (hash : List UInt8 → List UInt8)
    (self : State) (opts : Options) (out : List UInt8)
    (h : State.write_to hash self opts = (.ok (), out)) :
    ∃ extBytes,
      out = [68, 73, 82, 67] ++ be32 2 ++ be32 self.entries.length
              ++ paddedEntries self.entries ++ extBytes
      ∧ paddedEntries self.entries
          = (self.entries.map (fun e =>
              e ++ List.replicate ((8 - e.length % 8) % 8) 0)).flatten
      ∧ (paddedEntries self.entries).length % 8 = 0 := by
  obtain ⟨hv, hn, offE, toc, w, hb, hout⟩ := State.write_to_ok_inv h
  obtain ⟨hoff, hcase⟩ := State.write_body_ok hv hb
  rcases hcase with ⟨_, _, hinner, _⟩ | ⟨p, _, _, _, _, hinner, _⟩
  · refine ⟨(if 0 < self.entries.length
        ∧ (opts.extensions.should_write
            extension.end_of_index_entry.SIGNATURE).isSome = true
        ∧ toc ≠ []
      then eoieTail hash opts.hash_kind offE toc else []),
      ?_, rfl, paddedEntries_length_mod _⟩
    simp [hout, hinner, headerBytes, List.append_assoc]
  · refine ⟨treeBlock p ++ (if 0 < self.entries.length
        ∧ (opts.extensions.should_write
            extension.end_of_index_entry.SIGNATURE).isSome = true
        ∧ toc ≠ []
      then eoieTail hash opts.hash_kind offE toc else []),
      ?_, rfl, paddedEntries_length_mod _⟩
    simp [hout, hinner, headerBytes, List.append_assoc]

theorem write_to_entry_count_and_alignment_witness :
    ∃ extBytes,
      (State.write_to hash0 state1 optionsAll).2
        = [68, 73, 82, 67] ++ be32 2 ++ be32 state1.entries.length
            ++ paddedEntries state1.entries ++ extBytes
      ∧ paddedEntries state1.entries
          = (state1.entries.map (fun e =>
              e ++ List.replicate ((8 - e.length % 8) % 8) 0)).flatten
      ∧ (paddedEntries state1.entries).length % 8 = 0 :=
  write_to_entry_count_and_alignment hash0 state1 optionsAll
    (State.write_to hash0 state1 optionsAll).2 rfl

/-- C7: a state with zero entries never gets an end-of-index-entry extension
(the output is exactly the header plus, at most, a tree extension block), and
in general the trailing extension is appended exactly when the entry count is
positive, the policy approves its signature, and the table of contents is
non-empty. -/
theorem write_to_no_eoie_without_entries :
    (∀ (hash : List UInt8 → List UInt8) (self : State) (opts : Options) (out : List UInt8),
        self.entries = [] →
        State.write_to hash self opts = (.ok (), out) →
        ∃ tb, out = headerBytes 0 ++ tb
          ∧ (tb = [] ∨ ∃ p, self.tree = some p ∧ tb = treeBlock p))
    ∧ (∀ (hash : List UInt8 → List UInt8) (self : State) (opts : Options)
          (offE : Nat) (toc : List (Signature × Nat)) (w : CountBytes),
        opts.version = .V2 → self.entries.length ≤ u32Max →
        self.write_body opts = (.ok (offE, toc), w) →
        State.write_to hash self opts
          = (.ok (), w.inner
              ++ (if 0 < self.entries.length
                    ∧ (opts.extensions.should_write
                        extension.end_of_index_entry.SIGNATURE).isSome = true
                    ∧ toc ≠ []
                  then eoieTail hash opts.hash_kind offE toc else []))) := by
  constructor
  · intro hash self opts out hemp h
    obtain ⟨hv, hn, offE, toc, w, hb, hout⟩ := State.write_to_ok_inv h
    obtain ⟨hoff, hcase⟩ := State.write_body_ok hv hb
    have hcond : ¬(0 < self.entries.length
        ∧ (opts.extensions.should_write
            extension.end_of_index_entry.SIGNATURE).isSome = true
        ∧ toc ≠ []) := by
      simp [hemp]
    rw [if_neg hcond] at hout
    rcases hcase with ⟨_, _, hinner, _⟩ | ⟨p, _, htr, _, _, hinner, _⟩
    · refine ⟨[], ?_, Or.inl rfl⟩
      rw [hout, hinner, hemp]
      simp [paddedEntries_nil]
    · refine ⟨treeBlock p, ?_, Or.inr ⟨p, htr, rfl⟩⟩
      rw [hout, hinner, hemp]
      simp [paddedEntries_nil]
  · intro hash self opts offE toc w hv hn hb
    exact State.write_to_eq_body hv hn hb

theorem write_to_no_eoie_without_entries_witness :
    ∃ tb, (State.write_to hash0 stateEmpty optionsAll).2 = headerBytes 0 ++ tb
      ∧ (tb = [] ∨ ∃ p, stateEmpty.tree = some p ∧ tb = treeBlock p) :=
  write_to_no_eoie_without_entries.1 hash0 stateEmpty optionsAll
    (State.write_to hash0 stateEmpty optionsAll).2 rfl rfl

/-- C8: policy `None` emits zero extension bytes even when the state carries
a tree payload; policy `All` emits the tree extension exactly when the state
carries one, with the trailing checksum extension added exactly when at least
one entry exists (and nothing more when the state carries no extension); and
the explicit-subset policy never writes an unrecognized signature. -/
theorem write_to_extension_policy :
    (∀ (hash : List UInt8 → List UInt8) (self : State) (opts : Options) (out : List UInt8),
        opts.extensions = .None →
        State.write_to hash self opts = (.ok (), out) →
        out = headerBytes self.entries.length ++ paddedEntries self.entries)
    ∧ (∀ (hash : List UInt8 → List UInt8) (self : State) (opts : Options)
          (out : List UInt8) (p : List UInt8),
        opts.extensions = .All → self.tree = some p →
        State.write_to hash self opts = (.ok (), out) →
        out = headerBytes self.entries.length ++ paddedEntries self.entries ++ treeBlock p
            ++ (if 0 < self.entries.length
                then eoieTail hash opts.hash_kind
                       (12 + (paddedEntries self.entries).length)
                       [(extension.tree.SIGNATURE, p.length)]
                else []))
    ∧ (∀ (hash : List UInt8 → List UInt8) (self : State) (opts : Options) (out : List UInt8),
        opts.extensions = .All → self.tree = none →
        State.write_to hash self opts = (.ok (), out) →
        out = headerBytes self.entries.length ++ paddedEntries self.entries)
    ∧ (∀ (tree_cache end_of_index_entry : Bool) (sig : Signature),
        sig ≠ extension.tree.SIGNATURE →
        sig ≠ extension.end_of_index_entry.SIGNATURE →
        (Extensions.Given tree_cache end_of_index_entry).should_write sig = none) := by
  refine ⟨?_, ?_, ?_, ?_⟩
  · intro hash self opts out hN h
    obtain ⟨hv, hn, offE, toc, w, hb, hout⟩ := State.write_to_ok_inv h
    obtain ⟨hoff, hcase⟩ := State.write_body_ok hv hb
    rcases hcase with ⟨_, _, hinner, _⟩ | ⟨p, hsw, _, _, _, _, _⟩
    · rw [if_neg (by simp [hN, Extensions.should_write])] at hout
      rw [hout, hinner]
      simp
    · rw [hN] at hsw
      simp [Extensions.should_write] at hsw
  · intro hash self opts out p hA htree h
    obtain ⟨hv, hn, offE, toc, w, hb, hout⟩ := State.write_to_ok_inv h
    obtain ⟨hoff, hcase⟩ := State.write_body_ok hv hb
    rcases hcase with ⟨hnone, _, _, _⟩ | ⟨q, hsw, htr, htoc, hsize, hinner, _⟩
    · rcases hnone with hno | hno
      · rw [hA] at hno
        simp [Extensions.should_write] at hno
      · rw [htree] at hno
        exact absurd hno (by simp)
    · have hq : p = q := by
        rw [htree] at htr
        injection htr with htr
      subst hq
      have htoc2 : toc = [(extension.tree.SIGNATURE, p.length)] := by
        rw [htoc, hsize]
      by_cases hl : 0 < self.entries.length
      · rw [if_pos ⟨hl, by simp [hA, Extensions.should_write],
          by simp [htoc2]⟩] at hout
        rw [if_pos hl]
        simp [hout, hinner, htoc2, hoff, List.append_assoc]
      · rw [if_neg (by simp [hl])] at hout
        rw [if_neg hl]
        simp [hout, hinner, List.append_assoc]
  · intro hash self opts out hA htree h
    obtain ⟨hv, hn, offE, toc, w, hb, hout⟩ := State.write_to_ok_inv h
    obtain ⟨hoff, hcase⟩ := State.write_body_ok hv hb
    rcases hcase with ⟨_, htoc, hinner, _⟩ | ⟨q, _, htr, _, _, _, _⟩
    · rw [if_neg (by simp [htoc])] at hout
      rw [hout, hinner]
      simp
    · rw [htree] at htr
      exact absurd htr (by simp)
  · intro tree_cache end_of_index_entry sig hs1 hs2
    simp [Extensions.should_write, hs1, hs2]

theorem write_to_extension_policy_witness :
    (State.write_to hash0 state1 optionsAll).2
      = headerBytes state1.entries.length ++ paddedEntries state1.entries
          ++ treeBlock [7, 7]
          ++ (if 0 < state1.entries.length
              then eoieTail hash0 optionsAll.hash_kind
                     (12 + (paddedEntries state1.entries).length)
                     [(extension.tree.SIGNATURE, [7, 7].length)]
              else []) :=
  write_to_extension_policy.2.1 hash0 state1 optionsAll
    (State.write_to hash0 state1 optionsAll).2 [7, 7] rfl rfl rfl

/-- C9: every table-of-contents entry records the payload size as the byte
count after writing the block minus the count before it minus the fixed
signature-plus-length prefix, and the end-of-index-entry signature never
appears in the table of contents. -/
theorem write_toc_sizes_and_eoie_excluded :
    ∀ (self : State) (opts : Options) (offE : Nat) (toc : List (Signature × Nat))
      (w : CountBytes),
      opts.version = .V2 →
      State.write_body self opts = (.ok (offE, toc), w) →
      (toc.all (fun x => !(x.1 == extension.end_of_index_entry.SIGNATURE)) = true)
      ∧ (toc = []
         ∨ ∃ p, self.tree = some p
             ∧ toc = [(extension.tree.SIGNATURE, w.count - offE - extension.MIN_SIZE)]
             ∧ w.count - offE - extension.MIN_SIZE = p.length) := by
  intro self opts offE toc w hv hb
  obtain ⟨hoff, hcase⟩ := State.write_body_ok hv hb
  rcases hcase with ⟨_, htoc, _, _⟩ | ⟨p, _, htr, htoc, hsize, _, _⟩
  · subst htoc
    exact ⟨rfl, Or.inl rfl⟩
  · subst htoc
    have hne : (extension.tree.SIGNATURE == extension.end_of_index_entry.SIGNATURE)
        = false := by decide
    refine ⟨by simp [List.all_cons, hne], Or.inr ⟨p, htr, rfl, hsize⟩⟩

theorem write_toc_sizes_and_eoie_excluded_witness :
    (([(extension.tree.SIGNATURE, 2)] : List (Signature × Nat)).all
        (fun x => !(x.1 == extension.end_of_index_entry.SIGNATURE)) = true)
    ∧ (([(extension.tree.SIGNATURE, 2)] : List (Signature × Nat)) = []
       ∨ ∃ p, state1.tree = some p
           ∧ ([(extension.tree.SIGNATURE, 2)] : List (Signature × Nat))
               = [(extension.tree.SIGNATURE,
                    (State.write_body state1 optionsAll).2.count - 20 - extension.MIN_SIZE)]
           ∧ (State.write_body state1 optionsAll).2.count - 20 - extension.MIN_SIZE
               = p.length) :=
  write_toc_sizes_and_eoie_excluded state1 optionsAll 20
    [(extension.tree.SIGNATURE, 2)] (State.write_body state1 optionsAll).2 rfl rfl

theorem find_filter_none (p : FsPath) :
    ∀ (l : List (FsPath × FsKind)),
      (l.filter (fun q => !(q.1 == p))).find? (fun q => q.1 == p) = none := by
  intro l
  induction l with
  | nil => rfl
  | cons q rest ih =>
    by_cases hq : (q.1 == p) = true
    · simp [List.filter_cons, hq, ih]
    · simp only [List.filter_cons, Bool.not_eq_true] at *
      simp [hq, List.find?, ih]

theorem Fs.remove_file_lookup (fs : Fs) (p : FsPath) :
    (fs.remove_file p).lookup p = none := by
  simp [Fs.remove_file, Fs.lookup, find_filter_none p fs.entries]

theorem Fs.create_dir_of_lookup_none {fs : Fs} {p : FsPath} (h : fs.lookup p = none) :
    fs.create_dir p = (.created, ⟨(p, .dir) :: fs.entries⟩) := by
  unfold Fs.create_dir
  rw [h]

theorem Fs.create_dir_collision {fs : Fs} {p : FsPath} {k : FsKind}
    (h : fs.lookup p = some k) (hk : k ≠ .dir) :
    fs.create_dir p = (.collision, fs) := by
  unfold Fs.create_dir
  rw [h]
  cases k
  · exact absurd rfl hk
  · rfl
  · rfl

/-- C4: a required ancestor segment occupied by a plain file or by a symlink
(whatever it points at, the symlink never being traversed) makes the call fail
with `AlreadyExists` when removal on collision is disabled, after exactly one
directory-creation attempt and with the filesystem untouched; the two-call
collision scenario of the tests issues exactly 2 creation attempts in total. -/
theorem leading_dir_collision_forbidden :
    (∀ (cache : Cache) (fs : Fs) (p : FsPath) (k : FsKind),
        cache.unlink_on_collision = false → p ∉ cache.memo →
        fs.lookup p = some k → k ≠ .dir →
        cache.assure_dir fs p
          = (.error .AlreadyExists,
             { cache with test_mkdir_calls := cache.test_mkdir_calls + 1 }, fs))
    ∧ (let r1 := cacheNoUnlink.append_relative_path_assure_leading_dir fsCollide
          ["file-in-dir", "file"] .FILE
       let r2 := r1.2.1.append_relative_path_assure_leading_dir r1.2.2
          ["link-to-dir", "file"] .FILE
       r1.1 = .error .AlreadyExists ∧ r2.1 = .error .AlreadyExists
         ∧ r2.2.1.test_mkdir_calls = 2 ∧ r2.2.2 = fsCollide) := by
  constructor
  · intro cache fs p k hu hm hl hk
    simp [Cache.assure_dir, hm, Fs.create_dir_collision hl hk, hu]
  · decide

theorem leading_dir_collision_forbidden_witness :
    Cache.assure_dir cacheNoUnlink fsCollide ["tmp", "file-in-dir"]
      = (.error .AlreadyExists,
         { cacheNoUnlink with
             test_mkdir_calls := cacheNoUnlink.test_mkdir_calls + 1 }, fsCollide) :=
  leading_dir_collision_forbidden.1 cacheNoUnlink fsCollide ["tmp", "file-in-dir"]
    .file rfl (by decide) (by decide) (by decide)

/-- C5: with removal on collision enabled, a colliding non-directory ancestor
segment is unlinked (non-recursively: the entry at that exact path is removed
and nothing else), creation of that same prefix is retried exactly once (the
call makes exactly 2 creation attempts) and succeeds, memoizing the path; the
two-call scenario of the tests succeeds for both collision types, issues
exactly 4 creation attempts in total, replaces both colliding entries by
directories, and never creates the leaves. -/
theorem leading_dir_collision_unlinked_when_forced :
    (∀ (cache : Cache) (fs : Fs) (p : FsPath) (k : FsKind),
        cache.unlink_on_collision = true → p ∉ cache.memo →
        fs.lookup p = some k → k ≠ .dir →
        (fs.remove_file p).lookup p = none
        ∧ cache.assure_dir fs p
            = (.ok (),
               { cache with
                   test_mkdir_calls := cache.test_mkdir_calls + 2,
                   memo := p :: cache.memo },
               ⟨(p, .dir) :: (fs.remove_file p).entries⟩))
    ∧ (let r1 := cacheUnlink.append_relative_path_assure_leading_dir fsCollide
          ["link-to-dir", "file"] .FILE
       let r2 := r1.2.1.append_relative_path_assure_leading_dir r1.2.2
          ["file-in-dir", "file"] .FILE
       r1.1 = .ok ["tmp", "link-to-dir", "file"]
         ∧ r2.1 = .ok ["tmp", "file-in-dir", "file"]
         ∧ r2.2.1.test_mkdir_calls = 4
         ∧ r2.2.2.lookup ["tmp", "link-to-dir"] = some .dir
         ∧ r2.2.2.lookup ["tmp", "file-in-dir"] = some .dir
         ∧ r2.2.2.lookup ["tmp", "link-to-dir", "file"] = none
         ∧ r2.2.2.lookup ["tmp", "file-in-dir", "file"] = none) := by
  constructor
  · intro cache fs p k hu hm hl hk
    refine ⟨Fs.remove_file_lookup fs p, ?_⟩
    simp [Cache.assure_dir, hm, Fs.create_dir_collision hl hk, hu,
      Fs.create_dir_of_lookup_none (Fs.remove_file_lookup fs p)]
  · decide

theorem leading_dir_collision_unlinked_when_forced_witness :
    (fsCollide.remove_file ["tmp", "link-to-dir"]).lookup ["tmp", "link-to-dir"] = none
    ∧ Cache.assure_dir cacheUnlink fsCollide ["tmp", "link-to-dir"]
        = (.ok (),
           { cacheUnlink with
               test_mkdir_calls := cacheUnlink.test_mkdir_calls + 2,
               memo := ["tmp", "link-to-dir"] :: cacheUnlink.memo },
           ⟨(["tmp", "link-to-dir"], .dir)
              :: (fsCollide.remove_file ["tmp", "link-to-dir"]).entries⟩) :=
  leading_dir_collision_unlinked_when_forced.1 cacheUnlink fsCollide
    ["tmp", "link-to-dir"] .symlink rfl (by decide) (by decide) (by decide)

/-- C6 counterexample: materializing the five test leaves issues exactly 3
directory-creation calls, yet the directory-mode leaf `dir/dir` (and the
submodule leaf `dir/submodule`) is present afterwards as a directory — the
cache did create those leaves, so "the cache never creates the leaf, whatever
its mode" fails while the 3-call count holds. -/
theorem five_leaves_dir_leaf_created :
    (Cache.materializeAll cacheNoUnlink fsEmpty fiveLeaves).2.1.test_mkdir_calls = 3
      ∧ (Cache.materializeAll cacheNoUnlink fsEmpty fiveLeaves).2.2.lookup
          ["tmp", "dir", "dir"] = some .dir
      ∧ (Cache.materializeAll cacheNoUnlink fsEmpty fiveLeaves).2.2.lookup
          ["tmp", "dir", "submodule"] = some .dir := by
  decide

/-- C6 (amended): materializing the five leaves under one cache instance
succeeds for all of them, issues exactly 3 directory-creation calls (the memo
prevents repeated attempts on the shared ancestor `dir`), and leaves every
leaf's parent present; the file-, executable- and symlink-mode leaves are
never created, while the directory- and submodule-commit-mode leaves are
themselves created as directories. -/
theorem five_leaves_three_mkdirs :
    (Cache.materializeAll cacheNoUnlink fsEmpty fiveLeaves).1
        = [.ok ["tmp", "dir", "dir"], .ok ["tmp", "dir", "submodule"],
           .ok ["tmp", "dir", "file"], .ok ["tmp", "dir", "exe"],
           .ok ["tmp", "dir", "link"]]
      ∧ (Cache.materializeAll cacheNoUnlink fsEmpty fiveLeaves).2.1.test_mkdir_calls = 3
      ∧ (Cache.materializeAll cacheNoUnlink fsEmpty fiveLeaves).2.2.lookup
          ["tmp", "dir"] = some .dir
      ∧ (Cache.materializeAll cacheNoUnlink fsEmpty fiveLeaves).2.2.lookup
          ["tmp", "dir", "file"] = none
      ∧ (Cache.materializeAll cacheNoUnlink fsEmpty fiveLeaves).2.2.lookup
          ["tmp", "dir", "exe"] = none
      ∧ (Cache.materializeAll cacheNoUnlink fsEmpty fiveLeaves).2.2.lookup
          ["tmp", "dir", "link"] = none
      ∧ (Cache.materializeAll cacheNoUnlink fsEmpty fiveLeaves).2.2.lookup
          ["tmp", "dir", "dir"] = some .dir
      ∧ (Cache.materializeAll cacheNoUnlink fsEmpty fiveLeaves).2.2.lookup
          ["tmp", "dir", "submodule"] = some .dir := by
  decide
